import Mathlib

/-!
Shallow embedding of `LuaToMermaid` (files `src/ltm.js` and the unnamed
variant `src/unnamed/part_000`): a Lua-AST to Mermaid flowchart converter.

The embedding models the graph-builder core of `src/ltm.js`:
`sanitizeLabel`, the node allocator `createNode`, the recursive
`traverseNode` dispatch, the Mermaid rendering of `generateMermaid`, and
the file writes performed by `main`.  JavaScript-specific behaviours are
modelled explicitly:

* a missing property (`undefined`) rendered through a template literal
  becomes the string `"undefined"`, while `Array.prototype.join` renders
  it as the empty string;
* a `null` node id rendered through a template literal becomes `"null"`;
* the truthiness test `if (parentNodeId)` is `Option.isSome` (ids are
  never the empty string);
* `switch` takes the syntactically first matching `case`, so the second
  `case "RepeatStatement":` block of `src/ltm.js` (lines 156-163, the
  `until`-wrapping variant) is unreachable dead code and the runtime
  behaviour is the first block (lines 58-67).
-/

namespace LuaToMermaid

/-- One character of the regex replace `label.replace(/[^a-zA-Z0-9_ ]/g, "_")`:
characters outside `[A-Za-z0-9_ ]` become an underscore. -/
def sanitizeChar (c : Char) : Char :=
  if c.isAlpha || c.isDigit || c = '_' || c = ' ' then c else '_'

/-- `sanitizeLabel` from `src/ltm.js` line 9-11: replace every character not in
`[A-Za-z0-9_ ]` by `_`. -/
def sanitizeLabel (label : String) : String :=
  String.mk (label.data.map sanitizeChar)

/-- A luaparse expression as consumed by the traversal: the only field the
code ever reads from an expression is `.raw`, which may be absent
(`undefined`), e.g. on identifiers and non-literal expressions. -/
structure Expr where
  raw : Option String
deriving DecidableEq

/-- JavaScript template-literal interpolation of a possibly-`undefined`
string: `` `${x}` `` prints `undefined` when the property is absent. -/
def jsUndef (o : Option String) : String := o.getD "undefined"

/-- JavaScript `Array.prototype.join` element conversion: `undefined` (and
`null`) elements become the empty string. -/
def jsJoinElem (o : Option String) : String := o.getD ""

/-- JavaScript `array.join(", ")`. -/
def joinComma (l : List String) : String := String.intercalate ", " l

/-- A diagram node `{ id, label }` as pushed by `createNode`. -/
structure DNode where
  id : String
  label : String
deriving DecidableEq

/-- A diagram edge `{ from, to, condition }`.  `toId` is an `Option` because
the code can push `to: clauseNodeId` where `clauseNodeId` is `null`;
`condition` is absent on structural parent links. -/
structure DEdge where
  fromId : String
  toId : Option String
  condition : Option String
deriving DecidableEq

/-- The mutable closure state of one `generateMermaid` call: the `nodes`
array, the `edges` array and the `nodeId` counter. -/
structure St where
  nodes : List DNode
  edges : List DEdge
  nodeId : Nat
deriving DecidableEq

/-- The id `` `node${n}` ``. -/
def mkId (n : Nat) : String := "node" ++ toString n

/-- `createNode` from `src/ltm.js` lines 18-22: allocate `` `node${nodeId++}` ``,
push `{ id, label: sanitizeLabel(label) }` and return the id. -/
def createNode (label : String) (st : St) : String × St :=
  (mkId st.nodeId,
    { nodes := st.nodes ++ [⟨mkId st.nodeId, sanitizeLabel label⟩]
      edges := st.edges
      nodeId := st.nodeId + 1 })

/-- `edges.push(e)`. -/
def pushEdge (e : DEdge) (st : St) : St :=
  { st with edges := st.edges ++ [e] }

/-- The pattern `if (parentNodeId) { edges.push({ from: parentNodeId, to:
currentNodeId }); }` guarding every structural parent link.  Ids are
non-empty strings, so JavaScript truthiness is `Option.isSome`. -/
def linkParent (parent : Option String) (childId : String) (st : St) : St :=
  match parent with
  | some p => pushEdge ⟨p, some childId, none⟩ st
  | none => st

/-- The `` `${node.step ? `, ${node.step.raw}` : ""}` `` segment of the
`ForNumericStatement` label. -/
def stepStr : Option Expr → String
  | some s => ", " ++ jsUndef s.raw
  | none => ""

/-- A luaparse AST value as dispatched on by `traverseNode`'s
`switch (node.type)`.  Identifier `name`s are plain strings (luaparse
always attaches them); expression `raw` text is optional.  `arr` models a
raw JavaScript array reaching `traverseNode` (luaparse statement `body`
lists), which has no `.type` and hits the `Array.isArray` default branch.
An `ifStat` carries its first clause separately: a luaparse `IfStatement`
always has at least one clause (the Lua grammar requires the `if` clause),
and the code reads `node.clauses[0]` unconditionally.  `other` is any
object with an unrecognized `.type`. -/
inductive Ast where
  | chunk (body : List Ast)
  | ifStat (cond : Expr) (body0 : Ast) (rest : List (Expr × Ast))
  | whileStat (cond : Expr) (body : Ast)
  | repeatStat (cond : Expr) (body : Ast)
  | forNumeric (varName : String) (startE : Expr) (endE : Expr)
      (stepE : Option Expr) (body : Ast)
  | forGeneric (varNames : List String) (iterators : List Expr) (body : Ast)
  | functionDecl (name : String) (parameters : List String) (body : Ast)
  | returnStat (args : List Expr)
  | callStat (baseName : String) (args : List Expr)
  | assignStat (varNames : List String) (init : List Expr)
  | tableCtor (fields : List (Expr × Expr))
  | localStat (varNames : List String) (init : List Expr)
  | arr (elems : List Ast)
  | other (typeName : String)

mutual

/-- `traverseNode(node, parentNodeId)` from `src/ltm.js` lines 24-177,
threading the closure state explicitly and returning the new state
together with `currentNodeId` (`none` is JavaScript `null`).  The clause
loop of the `IfStatement` case is split: the first clause (index 0, which
only recurses into its body) is inlined, and `traverseClauses` continues
from index 1. -/
def traverseNode (node : Ast) (parent : Option String) (st : St) :
    St × Option String :=
  match node with
  | .chunk body => (traverseList body parent st, none)
  | .ifStat cond body0 rest =>
    let c := createNode ("if " ++ jsUndef cond.raw) st
    let st1 := linkParent parent c.1 c.2
    let st2 := (traverseNode body0 (some c.1) st1).1
    (traverseClauses rest 1 c.1 st2, some c.1)
  | .whileStat cond body =>
    let c := createNode ("while " ++ jsUndef cond.raw) st
    let st1 := linkParent parent c.1 c.2
    ((traverseNode body (some c.1) st1).1, some c.1)
  | .repeatStat cond body =>
    let c := createNode "repeat" st
    let st1 := linkParent parent c.1 c.2
    let st2 := (traverseNode body (some c.1) st1).1
    let u := createNode ("until " ++ jsUndef cond.raw) st2
    (pushEdge ⟨c.1, some u.1, none⟩ u.2, some c.1)
  | .forNumeric v s e step body =>
    let c := createNode ("for " ++ v ++ " = " ++ jsUndef s.raw ++ ", " ++
      jsUndef e.raw ++ stepStr step) st
    let st1 := linkParent parent c.1 c.2
    ((traverseNode body (some c.1) st1).1, some c.1)
  | .forGeneric vars iters body =>
    let c := createNode ("for " ++ joinComma vars ++ " in " ++
      joinComma (iters.map (fun i => jsJoinElem i.raw))) st
    let st1 := linkParent parent c.1 c.2
    ((traverseNode body (some c.1) st1).1, some c.1)
  | .functionDecl name params body =>
    let c := createNode ("function " ++ name ++ "(" ++ joinComma params ++ ")") st
    let st1 := linkParent parent c.1 c.2
    ((traverseNode body (some c.1) st1).1, some c.1)
  | .returnStat args =>
    let c := createNode ("return " ++
      joinComma (args.map (fun a => jsJoinElem a.raw))) st
    (linkParent parent c.1 c.2, some c.1)
  | .callStat base args =>
    let c := createNode ("call " ++ base ++ "(" ++
      joinComma (args.map (fun a => jsJoinElem a.raw)) ++ ")") st
    (linkParent parent c.1 c.2, some c.1)
  | .assignStat vars init =>
    let c := createNode (joinComma vars ++ " = " ++
      joinComma (init.map (fun i => jsJoinElem i.raw))) st
    (linkParent parent c.1 c.2, some c.1)
  | .tableCtor fields =>
    let c := createNode ("table \x7b " ++
      joinComma (fields.map (fun f => jsUndef f.1.raw ++ " = " ++ jsUndef f.2.raw))
      ++ " \x7d") st
    (linkParent parent c.1 c.2, some c.1)
  | .localStat vars init =>
    let c := createNode ("local " ++ joinComma vars ++ " = " ++
      joinComma (init.map (fun i => jsJoinElem i.raw))) st
    (linkParent parent c.1 c.2, some c.1)
  | .arr elems => (traverseList elems parent st, none)
  | .other t =>
    let c := createNode t st
    (linkParent parent c.1 c.2, some c.1)
termination_by sizeOf node

/-- The `forEach` loops that call `traverseNode(x, parentNodeId)` on each
element of a statement list (`Chunk` bodies and raw arrays). -/
def traverseList (l : List Ast) (parent : Option String) (st : St) : St :=
  match l with
  | [] => st
  | a :: rest => traverseList rest parent (traverseNode a parent st).1
termination_by sizeOf l

/-- The `node.clauses.forEach((clause, index) => ...)` loop of the
`IfStatement` case, from clause index `index` on: traverse the clause body
with the condition node as parent and, for `index > 0`, push the branch
edge labeled `"No"` (index 1) or `"Else"` (later). -/
def traverseClauses (cs : List (Expr × Ast)) (index : Nat) (condId : String)
    (st : St) : St :=
  match cs with
  | [] => st
  | (_, body) :: rest =>
    let r := traverseNode body (some condId) st
    let st1 := if 0 < index then
        pushEdge ⟨condId, r.2, some (if index = 1 then "No" else "Else")⟩ r.1
      else r.1
    traverseClauses rest (index + 1) condId st1
termination_by sizeOf cs

end

/-- The fresh closure state allocated at the top of every
`generateMermaid` call (`let nodes = []; let edges = []; let nodeId = 0;`). -/
def initSt : St := ⟨[], [], 0⟩

/-- The final builder state of `generateMermaid(ast)`: the traversal is
started with `traverseNode(ast)`, i.e. parent `null`, on fresh state. -/
def genState (ast : Ast) : St := (traverseNode ast none initSt).1

/-- The Mermaid rendering loop of `generateMermaid` (`src/ltm.js` lines
181-189): header, then one `` `  ${id}[${label}];` `` line per node, then one
`` `  ${from}-->${to};` `` line per edge (a `null` target prints as `null`;
the `condition` field is never rendered). -/
def renderMermaid (st : St) : String :=
  "graph TD;\n"
    ++ st.nodes.foldl (fun acc n => acc ++ "  " ++ n.id ++ "[" ++ n.label ++ "];\n") ""
    ++ st.edges.foldl (fun acc e => acc ++ "  " ++ e.fromId ++ "-->" ++ e.toId.getD "null" ++ ";\n") ""

/-- `generateMermaid(ast)` from `src/ltm.js` lines 13-190. -/
def generateMermaid (ast : Ast) : String := renderMermaid (genState ast)

/-- The fixed output path of `main` in `src/ltm.js` line 194. -/
def outputFilePath : String := "output.mermaid"

/-- The sequence of `fs.writeFileSync(path, contents)` calls a successful
`main()` run of `src/ltm.js` performs (lines 204-208), given the parsed
AST of the input file (parsing is the external luaparse collaborator). -/
def mainWrites (ast : Ast) : List (String × String) :=
  let mermaidCode := generateMermaid ast
  [(outputFilePath, mermaidCode),
   (outputFilePath ++ ".md", "```mermaid\n" ++ mermaidCode ++ "\n```")]

/-- The single `fs.writeFileSync` call of the variant `main()` in
`src/unnamed/part_000` (lines 136-150), which writes only
`output.mermaid.md`; its `generateMermaid` already wraps the code fence. -/
def mainWritesVariant (ast : Ast) : List (String × String) :=
  [("output.mermaid.md", "```mermaid\n" ++ generateMermaid ast ++ "\n```")]

/-- Sequential invocations of `generateMermaid` within one process: the
arrays and the counter are `let`-locals of each call, so each run starts
from `initSt`. -/
def generateMermaidSeq (runs : List Ast) : List String :=
  runs.map generateMermaid

/-- Invariant: the ids of the node list, in creation order, are exactly
`node0 .. node(nodeId-1)`. -/
def IdsOk (st : St) : Prop :=
  st.nodes.map DNode.id = (List.range st.nodeId).map mkId

/-- The builder state only ever grows: nodes and edges are appended, the
counter never decreases, and the id discipline is preserved. -/
def Ext (st st' : St) : Prop :=
  (∃ dn, st'.nodes = st.nodes ++ dn) ∧ (∃ de, st'.edges = st.edges ++ de) ∧
    st.nodeId ≤ st'.nodeId ∧ (IdsOk st → IdsOk st')

/-- Digits of `n` in base 10, most significant first: `Nat.toDigitsCore`
with the fuel argument eliminated. -/
def digitsRec (n : Nat) : List Char :=
  if n < 10 then [Nat.digitChar n]
  else digitsRec (n / 10) ++ [Nat.digitChar (n % 10)]
decreasing_by exact Nat.div_lt_self (by omega) (by omega)

/-- The AST luaparse produces for `if x then return 1 else return 2 end`
(conditions carry their source text; clause bodies are raw statement
arrays; the else clause has no condition object). -/
def ifReturnAst : Ast :=
  .ifStat ⟨some "x"⟩ (.arr [.returnStat [⟨some "1"⟩]])
    [(⟨none⟩, .arr [.returnStat [⟨some "2"⟩]])]


theorem Ext.rfl (st : St) : Ext st st :=
  ⟨⟨[], by simp⟩, ⟨[], by simp⟩, Nat.le_refl _, id⟩

theorem Ext.trans {a b c : St} (h1 : Ext a b) (h2 : Ext b c) : Ext a c := by
  obtain ⟨⟨dn1, hn1⟩, ⟨de1, he1⟩, hi1, hk1⟩ := h1
  obtain ⟨⟨dn2, hn2⟩, ⟨de2, he2⟩, hi2, hk2⟩ := h2
  exact ⟨⟨dn1 ++ dn2, by simp [hn2, hn1]⟩, ⟨de1 ++ de2, by simp [he2, he1]⟩,
    Nat.le_trans hi1 hi2, fun h => hk2 (hk1 h)⟩

theorem ext_createNode (label : String) (st : St) :
    Ext st (createNode label st).2 := by
  refine ⟨⟨_, rfl⟩, ⟨[], by simp [createNode]⟩, by simp [createNode], ?_⟩
  intro h
  unfold IdsOk at h ⊢
  simp [createNode, List.range_succ, h]

theorem ext_pushEdge (e : DEdge) (st : St) : Ext st (pushEdge e st) :=
  ⟨⟨[], by simp [pushEdge]⟩, ⟨[e], rfl⟩, Nat.le_refl _, fun h => h⟩

theorem ext_linkParent (p : Option String) (cid : String) (st : St) :
    Ext st (linkParent p cid st) := by
  cases p with
  | none => exact Ext.rfl st
  | some q => exact ext_pushEdge _ st

theorem traverse_ext :
    (∀ n p st, Ext st (traverseNode n p st).1) ∧
    (∀ cs i cid st, Ext st (traverseClauses cs i cid st)) ∧
    (∀ l p st, Ext st (traverseList l p st)) := by
  refine traverseNode.mutual_induct
    (fun n p st => Ext st (traverseNode n p st).1)
    (fun cs i cid st => Ext st (traverseClauses cs i cid st))
    (fun l p st => Ext st (traverseList l p st))
    ?_ ?_ ?_ ?_ ?_ ?_ ?_ ?_ ?_ ?_ ?_ ?_ ?_ ?_ ?_ ?_ ?_ ?_
  · intro p st body h
    simpa [traverseNode] using h
  · intro p st cond body0 rest c st1 st2 h1 h1' h2
    simp only [traverseNode]
    exact Ext.trans (ext_createNode _ _) (Ext.trans (ext_linkParent _ _ _)
      (Ext.trans h1' h2))
  · intro p st cond body c st1 h1
    simp only [traverseNode]
    exact Ext.trans (ext_createNode _ _) (Ext.trans (ext_linkParent _ _ _) h1)
  · intro p st cond body c st1 h1
    simp only [traverseNode]
    exact Ext.trans (ext_createNode _ _) (Ext.trans (ext_linkParent _ _ _)
      (Ext.trans h1 (Ext.trans (ext_createNode _ _) (ext_pushEdge _ _))))
  · intro p st v s e step body c st1 h1
    simp only [traverseNode]
    exact Ext.trans (ext_createNode _ _) (Ext.trans (ext_linkParent _ _ _) h1)
  · intro p st vars iters body c st1 h1
    simp only [traverseNode]
    exact Ext.trans (ext_createNode _ _) (Ext.trans (ext_linkParent _ _ _) h1)
  · intro p st name params body c st1 h1
    simp only [traverseNode]
    exact Ext.trans (ext_createNode _ _) (Ext.trans (ext_linkParent _ _ _) h1)
  · intro p st args
    simp only [traverseNode]
    exact Ext.trans (ext_createNode _ _) (ext_linkParent _ _ _)
  · intro p st base args
    simp only [traverseNode]
    exact Ext.trans (ext_createNode _ _) (ext_linkParent _ _ _)
  · intro p st vars init
    simp only [traverseNode]
    exact Ext.trans (ext_createNode _ _) (ext_linkParent _ _ _)
  · intro p st fields
    simp only [traverseNode]
    exact Ext.trans (ext_createNode _ _) (ext_linkParent _ _ _)
  · intro p st vars init
    simp only [traverseNode]
    exact Ext.trans (ext_createNode _ _) (ext_linkParent _ _ _)
  · intro p st elems h
    simpa [traverseNode] using h
  · intro p st t
    simp only [traverseNode]
    exact Ext.trans (ext_createNode _ _) (ext_linkParent _ _ _)
  · intro i cid st
    simp only [traverseClauses]
    exact Ext.rfl st
  · intro i cid st fst body rest
    dsimp only
    intro h1 h2
    simp only [traverseClauses]
    refine Ext.trans h1 ?_
    by_cases hi : 0 < i
    · simp only [hi, if_true] at h2 ⊢
      exact Ext.trans (ext_pushEdge _ _) h2
    · simp only [hi, if_false] at h2 ⊢
      exact h2
  · intro p st
    simp only [traverseList]
    exact Ext.rfl st
  · intro p st a rest h1 h2
    simp only [traverseList]
    exact Ext.trans h1 h2

theorem digitsRec_lt {n : Nat} (h : n < 10) :
    digitsRec n = [Nat.digitChar n] := by
  rw [digitsRec, if_pos h]

theorem digitsRec_ge {n : Nat} (h : ¬ n < 10) :
    digitsRec n = digitsRec (n / 10) ++ [Nat.digitChar (n % 10)] := by
  rw [digitsRec, if_neg h]

theorem digitsRec_ne_nil (n : Nat) : digitsRec n ≠ [] := by
  by_cases h : n < 10
  · rw [digitsRec_lt h]; simp
  · rw [digitsRec_ge h]; simp

theorem toDigitsCore_eq_digitsRec (fuel n : Nat) (ds : List Char)
    (h : n < fuel) : Nat.toDigitsCore 10 fuel n ds = digitsRec n ++ ds := by
  induction fuel generalizing n ds with
  | zero => omega
  | succ f ih =>
    rw [Nat.toDigitsCore]
    by_cases h10 : n / 10 = 0
    · have hn : n < 10 := by omega
      rw [digitsRec_lt hn]
      simp [h10, Nat.mod_eq_of_lt hn]
    · have hlt : n / 10 < f := by
        have := Nat.div_lt_self (by omega : 0 < n) (by omega : 1 < 10)
        omega
      have hge : ¬ n < 10 := fun hc => h10 (Nat.div_eq_of_lt hc)
      simp only [h10, if_false]
      rw [ih _ _ hlt, digitsRec_ge hge]
      simp

theorem digitChar_inj_lt : ∀ m < 10, ∀ n < 10,
    Nat.digitChar m = Nat.digitChar n → m = n := by decide

theorem digitsRec_injective : ∀ m n : Nat, digitsRec m = digitsRec n → m = n := by
  intro m
  induction m using Nat.strong_induction_on with
  | _ m ih =>
    intro n h
    by_cases hm : m < 10 <;> by_cases hn : n < 10
    · rw [digitsRec_lt hm, digitsRec_lt hn] at h
      exact digitChar_inj_lt m hm n hn (by simpa using h)
    · exfalso
      rw [digitsRec_lt hm, digitsRec_ge hn] at h
      cases hd : digitsRec (n / 10) with
      | nil => exact digitsRec_ne_nil _ hd
      | cons a l => rw [hd] at h; simp at h
    · exfalso
      rw [digitsRec_ge hm, digitsRec_lt hn] at h
      cases hd : digitsRec (m / 10) with
      | nil => exact digitsRec_ne_nil _ hd
      | cons a l => rw [hd] at h; simp at h
    · rw [digitsRec_ge hm, digitsRec_ge hn] at h
      obtain ⟨h3, h4⟩ := List.append_inj' h (by simp)
      have hdiv : m / 10 = n / 10 :=
        ih (m / 10) (Nat.div_lt_self (by omega) (by omega)) (n / 10) h3
      have hmod : m % 10 = n % 10 := by
        refine digitChar_inj_lt (m % 10) (Nat.mod_lt _ (by omega)) (n % 10)
          (Nat.mod_lt _ (by omega)) ?_
        simpa using h4
      omega

theorem repr_injective : ∀ m n : Nat, Nat.repr m = Nat.repr n → m = n := by
  intro m n h
  unfold Nat.repr Nat.toDigits at h
  rw [toDigitsCore_eq_digitsRec _ _ _ (by omega),
    toDigitsCore_eq_digitsRec _ _ _ (by omega)] at h
  simp only [List.asString, List.append_nil] at h
  exact digitsRec_injective m n (congrArg String.data h)

theorem mkId_injective : Function.Injective mkId := by
  intro m n h
  unfold mkId at h
  have h2 : Nat.repr m = Nat.repr n := by
    have := congrArg String.data h
    simp only [String.data_append] at this
    exact congrArg String.mk (List.append_cancel_left this)
  exact repr_injective m n h2

theorem initSt_idsOk : IdsOk initSt := by
  unfold IdsOk initSt
  simp

theorem genState_idsOk (ast : Ast) : IdsOk (genState ast) :=
  (traverse_ext.1 ast none initSt).2.2.2 initSt_idsOk

theorem createNode_fst (label : String) (st : St) :
    (createNode label st).1 = mkId st.nodeId := rfl

theorem createNode_nodes (label : String) (st : St) :
    (createNode label st).2.nodes
      = st.nodes ++ [⟨mkId st.nodeId, sanitizeLabel label⟩] := rfl

theorem pushEdge_nodes (e : DEdge) (st : St) : (pushEdge e st).nodes = st.nodes := rfl

theorem linkParent_nodes (p : Option String) (cid : String) (st : St) :
    (linkParent p cid st).nodes = st.nodes := by
  cases p <;> rfl

theorem Ext.mem_edges {a b : St} (h : Ext a b) {e : DEdge} (he : e ∈ a.edges) :
    e ∈ b.edges := by
  obtain ⟨_, ⟨de, hde⟩, _, _⟩ := h
  rw [hde]
  exact List.mem_append_left _ he

theorem Ext.nodes_append {a b : St} (h : Ext a b) :
    ∃ dn, b.nodes = a.nodes ++ dn := h.1

theorem pushEdge_mem (e : DEdge) (st : St) : e ∈ (pushEdge e st).edges := by
  simp [pushEdge]

/-- The clause loop never reads the conditions of the clauses it iterates
over, so the traversal is invariant under replacing them. -/
theorem traverseClauses_conds (cs cs' : List (Expr × Ast)) (i : Nat)
    (cid : String) (st : St) (h : cs.map Prod.snd = cs'.map Prod.snd) :
    traverseClauses cs i cid st = traverseClauses cs' i cid st := by
  induction cs generalizing cs' i st with
  | nil =>
    cases cs' with
    | nil => rfl
    | cons b t' => simp at h
  | cons a t ih =>
    obtain ⟨ae, ab⟩ := a
    cases cs' with
    | nil => simp at h
    | cons b t' =>
      obtain ⟨be, bb⟩ := b
      simp only [List.map_cons, List.cons.injEq] at h
      obtain ⟨h1, h2⟩ := h
      subst h1
      simp only [traverseClauses]
      exact ih t' (i + 1) _ h2

/-- Every clause at position `k` of the loop starting at index `i ≥ 1` gets a
branch edge from the condition node, labeled `"No"` exactly when its index
`i + k` is `1` and `"Else"` otherwise. -/
theorem traverseClauses_branch (cs : List (Expr × Ast)) (i : Nat) (cid : String)
    (st : St) (hi : 0 < i) : ∀ k, k < cs.length →
    ∃ r, (⟨cid, r, some (if i + k = 1 then "No" else "Else")⟩ : DEdge)
      ∈ (traverseClauses cs i cid st).edges := by
  induction cs generalizing i st with
  | nil =>
    intro k hk
    simp at hk
  | cons a t ih =>
    obtain ⟨ae, ab⟩ := a
    intro k hk
    cases k with
    | zero =>
      refine ⟨(traverseNode ab (some cid) st).2, ?_⟩
      simp only [traverseClauses, hi, if_true, Nat.add_zero]
      refine (traverse_ext.2.1 t (i + 1) cid _).mem_edges ?_
      exact pushEdge_mem _ _
    | succ m =>
      simp only [List.length_cons] at hk
      have hkm : m < t.length := by omega
      obtain ⟨r, hr⟩ := ih (i + 1) (if 0 < i then
          pushEdge ⟨cid, (traverseNode ab (some cid) st).2,
            some (if i = 1 then "No" else "Else")⟩ (traverseNode ab (some cid) st).1
        else (traverseNode ab (some cid) st).1) (by omega) m hkm
      refine ⟨r, ?_⟩
      have harith : i + 1 + m = i + (m + 1) := by omega
      rw [harith] at hr
      simp only [traverseClauses]
      simpa [hi] using hr

theorem sanitizeChar_idem (c : Char) :
    sanitizeChar (sanitizeChar c) = sanitizeChar c := by
  unfold sanitizeChar
  split
  · rfl
  · simp

theorem sanitizeLabel_idem (s : String) :
    sanitizeLabel (sanitizeLabel s) = sanitizeLabel s := by
  unfold sanitizeLabel
  simp [List.map_map, Function.comp_def, sanitizeChar_idem]

theorem sanitizeChar_class (c : Char) :
    ('a' ≤ sanitizeChar c ∧ sanitizeChar c ≤ 'z') ∨
    ('A' ≤ sanitizeChar c ∧ sanitizeChar c ≤ 'Z') ∨
    ('0' ≤ sanitizeChar c ∧ sanitizeChar c ≤ '9') ∨
    sanitizeChar c = '_' ∨ sanitizeChar c = ' ' := by
  unfold sanitizeChar
  split
  · rename_i h
    simp only [Char.isAlpha, Char.isUpper, Char.isLower, Char.isDigit,
      Bool.or_eq_true, Bool.and_eq_true, decide_eq_true_eq] at h
    rcases h with (((⟨h1, h2⟩ | ⟨h1, h2⟩) | ⟨h1, h2⟩) | h) | h
    · right; left
      rw [Char.le_def, Char.le_def]
      exact ⟨h1, h2⟩
    · left
      rw [Char.le_def, Char.le_def]
      exact ⟨h1, h2⟩
    · right; right; left
      rw [Char.le_def, Char.le_def]
      exact ⟨h1, h2⟩
    · right; right; right; left; exact h
    · right; right; right; right; exact h
  · right; right; right; left; rfl

/-- The node created for an `IfStatement` sits right after the pre-existing
nodes and is labeled from the FIRST clause's condition raw text. -/
theorem ifStat_nodes (cond : Expr) (body0 : Ast) (rest : List (Expr × Ast))
    (p : Option String) (st : St) :
    ∃ dn, (traverseNode (.ifStat cond body0 rest) p st).1.nodes
      = st.nodes ++ ⟨mkId st.nodeId, sanitizeLabel ("if " ++ jsUndef cond.raw)⟩ :: dn := by
  simp only [traverseNode, createNode_fst]
  obtain ⟨dn, hdn⟩ := (Ext.trans
    (traverse_ext.1 body0 (some (mkId st.nodeId))
      (linkParent p (mkId st.nodeId) (createNode ("if " ++ jsUndef cond.raw) st).2))
    (traverse_ext.2.1 rest 1 (mkId st.nodeId)
      (traverseNode body0 (some (mkId st.nodeId))
        (linkParent p (mkId st.nodeId)
          (createNode ("if " ++ jsUndef cond.raw) st).2)).1)).nodes_append
  rw [linkParent_nodes, createNode_nodes] at hdn
  refine ⟨dn, ?_⟩
  rw [hdn]
  simp

/-- C4: a `RepeatStatement` always follows the first (live) policy of
`src/ltm.js`: the returned id is a fresh node labeled `repeat` placed right
after the pre-existing nodes; the body is traversed with that node as
parent; the `until <condition>` node is appended after all of the body's
nodes; and an edge runs from the repeat node to the until node.  The
parent, when present, is linked to the repeat node.  The dead variant
(a single `until` node wrapping the body) never occurs. -/
theorem repeat_policy (cond : Expr) (body : Ast) (p : Option String) (st : St) :
    (traverseNode (.repeatStat cond body) p st).2 = some (mkId st.nodeId)
    ∧ (∃ bodyNodes uid,
        (traverseNode (.repeatStat cond body) p st).1.nodes
          = st.nodes ++ ⟨mkId st.nodeId, "repeat"⟩ :: bodyNodes
              ++ [⟨uid, sanitizeLabel ("until " ++ jsUndef cond.raw)⟩]
        ∧ (traverseNode body (some (mkId st.nodeId))
              (linkParent p (mkId st.nodeId) (createNode "repeat" st).2)).1.nodes
            = st.nodes ++ ⟨mkId st.nodeId, "repeat"⟩ :: bodyNodes
        ∧ (⟨mkId st.nodeId, some uid, none⟩ : DEdge)
            ∈ (traverseNode (.repeatStat cond body) p st).1.edges)
    ∧ (∀ q, p = some q →
        (⟨q, some (mkId st.nodeId), none⟩ : DEdge)
          ∈ (traverseNode (.repeatStat cond body) p st).1.edges) := by
  have hsan : sanitizeLabel "repeat" = "repeat" := by decide
  simp only [traverseNode, createNode_fst]
  refine ⟨trivial, ?_, ?_⟩
  · obtain ⟨dn, hdn⟩ :=
      (traverse_ext.1 body (some (mkId st.nodeId))
        (linkParent p (mkId st.nodeId) (createNode "repeat" st).2)).nodes_append
    rw [linkParent_nodes, createNode_nodes, hsan] at hdn
    refine ⟨dn, mkId (traverseNode body (some (mkId st.nodeId))
        (linkParent p (mkId st.nodeId) (createNode "repeat" st).2)).1.nodeId,
      ?_, ?_, ?_⟩
    · rw [pushEdge_nodes, createNode_nodes, hdn]
      simp
    · rw [hdn]
      simp
    · exact pushEdge_mem _ _
  · intro q hq
    subst hq
    have hm : (⟨q, some (mkId st.nodeId), none⟩ : DEdge)
        ∈ (linkParent (some q) (mkId st.nodeId) (createNode "repeat" st).2).edges := by
      simp only [linkParent]
      exact pushEdge_mem _ _
    exact (Ext.trans (traverse_ext.1 body (some (mkId st.nodeId))
        (linkParent (some q) (mkId st.nodeId) (createNode "repeat" st).2))
      (Ext.trans (ext_createNode _ _) (ext_pushEdge _ _))).mem_edges hm

/-- C1 (code bug): the branch edge pushed for clause index 1 targets the
return value of traversing an array body, which is always `null`; on the
AST of `if x then return 1 else return 2 end` the edge list therefore
contains an edge whose target id is `null` and names no node. -/
theorem dangling_edge_exists :
    ∃ e ∈ (genState ifReturnAst).edges, e.toId = none := by
  refine ⟨⟨"node0", none, some "No"⟩, ?_, rfl⟩
  simp [genState, initSt, ifReturnAst, traverseNode, traverseList,
    traverseClauses, createNode, linkParent, pushEdge, mkId, jsUndef,
    jsJoinElem, joinComma]
  decide

/-- C2 (code bug): full evaluation of the traversal on the AST of
`if x then return 1 else return 2 end`: the three nodes carry the claimed
labels, but the edges are two unlabeled parent links (if→return1,
if→return2) plus a `"No"`-labeled edge to `null`; there is no
`"No"`-labeled edge targeting the `return 2` node. -/
theorem if_return_scenario_eval :
    genState ifReturnAst =
      ⟨[⟨"node0", "if x"⟩, ⟨"node1", "return 1"⟩, ⟨"node2", "return 2"⟩],
       [⟨"node0", some "node1", none⟩, ⟨"node0", some "node2", none⟩,
        ⟨"node0", none, some "No"⟩], 3⟩ := by
  simp [genState, initSt, ifReturnAst, traverseNode, traverseList,
    traverseClauses, createNode, linkParent, pushEdge, mkId, jsUndef,
    jsJoinElem, joinComma, sanitizeLabel, sanitizeChar]
  decide

/-- C3 counterexample: on an `IfStatement` whose condition has no literal
source text, the traversal emits a node with the defaulted label
`if undefined` and succeeds, rather than failing with a malformed-AST
error. -/
theorem missing_raw_emits_label_cex :
    (genState (.ifStat ⟨none⟩ (.arr []) [])).nodes = [⟨"node0", "if undefined"⟩]
    ∧ (genState (.ifStat ⟨none⟩ (.arr []) [])).edges = [] := by
  constructor
  · simp [genState, initSt, traverseNode, traverseList, traverseClauses,
      createNode, linkParent, pushEdge, mkId, jsUndef, sanitizeLabel, sanitizeChar]
    decide
  · simp [genState, initSt, traverseNode, traverseList, traverseClauses,
      createNode, linkParent, pushEdge, mkId, jsUndef, sanitizeLabel, sanitizeChar]

/-- C3 amended: the traversal never fails fast with a malformed-AST error;
a recognized node whose literal source text is absent gets a silently
defaulted label, in one of two modes.  Where the raw text is
template-interpolated, the JavaScript string `undefined` is embedded: an
`IfStatement` or `WhileStatement` condition without raw text yields a node
labeled `if undefined` / `while undefined`.  Where raw texts are rendered
through `Array.join` (Return/Call/Assignment/Local arguments, generic-for
iterators), an absent raw defaults to the empty string: a
`ReturnStatement` whose sole argument lacks raw text yields a node labeled
`return ` (trailing space, nothing else). -/
theorem missing_raw_no_failfast (cond wcond a : Expr) (body0 wbody : Ast)
    (rest : List (Expr × Ast)) (p q r : Option String) (st st2 st3 : St)
    (h : cond.raw = none) (hw : wcond.raw = none) (ha : a.raw = none) :
    (∃ dn, (traverseNode (.ifStat cond body0 rest) p st).1.nodes
        = st.nodes ++ ⟨mkId st.nodeId, "if undefined"⟩ :: dn)
    ∧ (∃ dn, (traverseNode (.whileStat wcond wbody) q st2).1.nodes
        = st2.nodes ++ ⟨mkId st2.nodeId, "while undefined"⟩ :: dn)
    ∧ (traverseNode (.returnStat [a]) r st3).1.nodes
        = st3.nodes ++ [⟨mkId st3.nodeId, "return "⟩] := by
  refine ⟨?_, ?_, ?_⟩
  · have hs : sanitizeLabel ("if " ++ jsUndef cond.raw) = "if undefined" := by
      rw [h]
      decide
    obtain ⟨dn, hdn⟩ := ifStat_nodes cond body0 rest p st
    rw [hs] at hdn
    exact ⟨dn, hdn⟩
  · have hs : sanitizeLabel ("while " ++ jsUndef wcond.raw) = "while undefined" := by
      rw [hw]
      decide
    simp only [traverseNode, createNode_fst]
    obtain ⟨dn, hdn⟩ := (traverse_ext.1 wbody (some (mkId st2.nodeId))
      (linkParent q (mkId st2.nodeId)
        (createNode ("while " ++ jsUndef wcond.raw) st2).2)).nodes_append
    rw [linkParent_nodes, createNode_nodes, hs] at hdn
    refine ⟨dn, ?_⟩
    rw [hdn]
    simp
  · have hs : sanitizeLabel ("return "
        ++ joinComma (List.map (fun x => jsJoinElem x.raw) [a])) = "return " := by
      simp only [List.map_cons, List.map_nil, ha]
      decide
    simp only [traverseNode]
    rw [linkParent_nodes, createNode_nodes, hs]

theorem missing_raw_no_failfast_witness :
    (∃ dn, (traverseNode (.ifStat ⟨none⟩ (.arr []) []) none initSt).1.nodes
        = initSt.nodes ++ ⟨mkId initSt.nodeId, "if undefined"⟩ :: dn)
    ∧ (∃ dn, (traverseNode (.whileStat ⟨none⟩ (.arr [])) none initSt).1.nodes
        = initSt.nodes ++ ⟨mkId initSt.nodeId, "while undefined"⟩ :: dn)
    ∧ (traverseNode (.returnStat [⟨none⟩]) none initSt).1.nodes
        = initSt.nodes ++ [⟨mkId initSt.nodeId, "return "⟩] :=
  missing_raw_no_failfast ⟨none⟩ ⟨none⟩ ⟨none⟩ (.arr []) (.arr []) [] none none
    none initSt initSt initSt rfl rfl rfl

/-- C6: an `IfStatement` creates exactly one condition node, labeled from
the FIRST clause's condition only, placed right after the pre-existing
nodes and returned as the statement's id; the traversal result does not
depend on the conditions of the later clauses at all; and each later
clause at position `k` of the tail (clause index `k + 1`) gets a branch
edge from the condition node labeled `"No"` when `k = 0` (index 1) and
`"Else"` otherwise. -/
theorem if_condition_label_and_branches (cond : Expr) (body0 : Ast)
    (rest : List (Expr × Ast)) (p : Option String) (st : St) :
    (∃ dn, (traverseNode (.ifStat cond body0 rest) p st).1.nodes
        = st.nodes
            ++ ⟨mkId st.nodeId, sanitizeLabel ("if " ++ jsUndef cond.raw)⟩ :: dn)
    ∧ (traverseNode (.ifStat cond body0 rest) p st).2 = some (mkId st.nodeId)
    ∧ (∀ rest', rest'.map Prod.snd = rest.map Prod.snd →
        traverseNode (.ifStat cond body0 rest') p st
          = traverseNode (.ifStat cond body0 rest) p st)
    ∧ (∀ k, k < rest.length →
        ∃ r, (⟨mkId st.nodeId, r, some (if k = 0 then "No" else "Else")⟩ : DEdge)
          ∈ (traverseNode (.ifStat cond body0 rest) p st).1.edges) := by
  refine ⟨ifStat_nodes cond body0 rest p st, by simp [traverseNode, createNode_fst], ?_, ?_⟩
  · intro rest' hr
    simp only [traverseNode]
    rw [traverseClauses_conds rest' rest 1 _ _ hr]
  · intro k hk
    have hlbl : (if 1 + k = 1 then "No" else "Else")
        = (if k = 0 then "No" else "Else") := by
      by_cases h0 : k = 0
      · rw [if_pos (by omega), if_pos h0]
      · rw [if_neg (by omega), if_neg h0]
    obtain ⟨r, hr⟩ := traverseClauses_branch rest 1 (mkId st.nodeId)
      (traverseNode body0 (some (mkId st.nodeId))
        (linkParent p (mkId st.nodeId)
          (createNode ("if " ++ jsUndef cond.raw) st).2)).1
      (by omega) k hk
    rw [hlbl] at hr
    refine ⟨r, ?_⟩
    simp only [traverseNode, createNode_fst]
    exact hr

theorem if_condition_label_and_branches_witness :
    (traverseNode (.ifStat ⟨some "x"⟩ (.arr []) [(⟨some "y"⟩, .arr [])]) none initSt)
        = (traverseNode (.ifStat ⟨some "x"⟩ (.arr []) [(⟨some "z"⟩, .arr [])]) none initSt)
    ∧ ∃ r, (⟨mkId initSt.nodeId, r, some "No"⟩ : DEdge)
        ∈ (traverseNode (.ifStat ⟨some "x"⟩ (.arr []) [(⟨some "z"⟩, .arr [])])
            none initSt).1.edges := by
  have h := if_condition_label_and_branches ⟨some "x"⟩ (.arr [])
    [(⟨some "z"⟩, .arr [])] none initSt
  refine ⟨h.2.2.1 [(⟨some "y"⟩, .arr [])] rfl, ?_⟩
  obtain ⟨r, hr⟩ := h.2.2.2 0 (by decide)
  exact ⟨r, by simpa using hr⟩

/-- C7: `sanitizeLabel` is idempotent and its output only contains ASCII
letters, digits, underscore and space. -/
theorem sanitize_idem_and_class (s : String) :
    sanitizeLabel (sanitizeLabel s) = sanitizeLabel s
    ∧ ∀ c ∈ (sanitizeLabel s).data,
      ('a' ≤ c ∧ c ≤ 'z') ∨ ('A' ≤ c ∧ c ≤ 'Z') ∨ ('0' ≤ c ∧ c ≤ '9')
        ∨ c = '_' ∨ c = ' ' := by
  refine ⟨sanitizeLabel_idem s, ?_⟩
  intro c hc
  obtain ⟨c', hmem, hcc⟩ := List.mem_map.1 hc
  rw [← hcc]
  exact sanitizeChar_class c'

theorem sanitize_idem_and_class_witness :
    sanitizeLabel (sanitizeLabel "a+b") = sanitizeLabel "a+b"
    ∧ (('a' ≤ '_' ∧ '_' ≤ 'z') ∨ ('A' ≤ '_' ∧ '_' ≤ 'Z')
        ∨ ('0' ≤ '_' ∧ '_' ≤ '9') ∨ '_' = '_' ∨ '_' = ' ') :=
  ⟨(sanitize_idem_and_class "a+b").1,
   (sanitize_idem_and_class "a+b").2 '_' (by decide)⟩

/-- C8: in one run, node ids are `node0, node1, node2, ...` in creation
order (one per `createNode` call) and contain no repetition. -/
theorem node_ids_monotone_distinct (ast : Ast) :
    (genState ast).nodes.map DNode.id
        = (List.range (genState ast).nodeId).map mkId
    ∧ ((genState ast).nodes.map DNode.id).Nodup := by
  refine ⟨genState_idsOk ast, ?_⟩
  rw [genState_idsOk ast]
  exact (List.nodup_range _).map mkId_injective

/-- C9: traversing an array-shaped value returns `null` (`none`) whatever
the elements do: the elements are traversed with the same parent, but the
caller receives no node id. -/
theorem array_traversal_returns_null (l : List Ast) (p : Option String) (st : St) :
    (traverseNode (.arr l) p st).2 = none
    ∧ (traverseNode (.arr l) p st).1 = traverseList l p st := by
  constructor <;> simp [traverseNode]

/-- C10: the node list, edge list and counter are created fresh inside each
`generateMermaid` invocation, so a run's output in a sequence of runs
equals the output of running it alone, equal ASTs give byte-identical
strings, and the counter restarts at 0 (the first node of any run is
`node0`). -/
theorem generateMermaid_fresh_state (prior : List Ast) (a b : Ast) (h : a = b) :
    generateMermaidSeq (prior ++ [a])
        = generateMermaidSeq prior ++ [generateMermaid b]
    ∧ ∀ nd, (genState b).nodes.head? = some nd → nd.id = mkId 0 := by
  subst h
  constructor
  · simp [generateMermaidSeq]
  · intro nd hnd
    have hids := genState_idsOk a
    unfold IdsOk at hids
    cases hns : (genState a).nodes with
    | nil => rw [hns] at hnd; simp at hnd
    | cons x t =>
      rw [hns] at hnd hids
      simp only [List.head?_cons, Option.some.injEq] at hnd
      subst hnd
      cases hn : (genState a).nodeId with
      | zero => rw [hn] at hids; simp at hids
      | succ m =>
        rw [hn, List.range_succ_eq_map] at hids
        simp only [List.map_cons, List.map_map] at hids
        exact (List.cons.injEq _ _ _ _ ▸ hids).1

theorem generateMermaid_fresh_state_witness :
    generateMermaidSeq ([.chunk []] ++ [.localStat ["a"] [⟨some "1"⟩]])
        = generateMermaidSeq [.chunk []]
            ++ [generateMermaid (.localStat ["a"] [⟨some "1"⟩])]
    ∧ ∀ nd, (genState (.localStat ["a"] [⟨some "1"⟩])).nodes.head? = some nd →
        nd.id = mkId 0 :=
  generateMermaid_fresh_state [.chunk []] (.localStat ["a"] [⟨some "1"⟩])
    (.localStat ["a"] [⟨some "1"⟩]) rfl

/-- C5 counterexample: a successful `main()` run of `src/ltm.js` persists
two distinct files, not one. -/
theorem single_output_file_cex :
    (mainWrites (.chunk [])).map Prod.fst = ["output.mermaid", "output.mermaid.md"]
    ∧ "output.mermaid" ≠ "output.mermaid.md" := by
  constructor
  · rfl
  · decide

/-- C5 amended: a successful run of `src/ltm.js` persists exactly two files
with fixed names, `output.mermaid` and `output.mermaid.md`; the variant
`main` of `src/unnamed/part_000` persists exactly one, `output.mermaid.md`. -/
theorem main_writes_two_files (ast : Ast) :
    (mainWrites ast).map Prod.fst = [outputFilePath, outputFilePath ++ ".md"]
    ∧ (mainWrites ast).length = 2
    ∧ (mainWritesVariant ast).map Prod.fst = ["output.mermaid.md"]
    ∧ (mainWritesVariant ast).length = 1 :=
  ⟨rfl, rfl, rfl, rfl⟩

theorem repeat_policy_witness :
    (⟨"node0", some (mkId 1), none⟩ : DEdge)
      ∈ (traverseNode (.repeatStat ⟨some "x"⟩ (.arr []) ) (some "node0")
          ⟨[⟨"node0", "y"⟩], [], 1⟩).1.edges :=
  (repeat_policy ⟨some "x"⟩ (.arr []) (some "node0")
    ⟨[⟨"node0", "y"⟩], [], 1⟩).2.2 "node0" rfl

end LuaToMermaid
